import Mathlib

/-!
Verification of the ipcalc address-arithmetic core (src/ipcalc.c).

Addresses are modelled in host byte order: an IPv4 address is a natural
number below 2^32, an IPv6 address is a list of 16 bytes (naturals below
256) in network order, exactly as the 16-byte s6_addr array of the source.
The byte-order conversions htonl/ntohl of the source cancel out around
every arithmetic step and are therefore not modelled separately.
-/

namespace Ipcalc

/-- Complement of a 32-bit word, the C expression ~m on uint32_t. -/
def compl32 (m : Nat) : Nat := 2 ^ 32 - 1 - m

/-- Complement of a byte, the C expression ~m truncated to uint8_t. -/
def compl8 (m : Nat) : Nat := 255 - m

/-- Decrement of a 32-bit word with unsigned wrap-around, the C expression
x - 1 on uint32_t. -/
def sub1_32 (x : Nat) : Nat := (x + (2 ^ 32 - 1)) % 2 ^ 32

/-- prefix2mask from ipcalc.c: mask.s_addr = htonl(~((1 << (32 - p)) - 1))
for a nonzero p, and htonl(0) for p = 0 (host-order value). -/
def prefix2mask (p : Nat) : Nat :=
  if p ≠ 0 then compl32 ((1 <<< (32 - p)) - 1) else 0

/-- calc_network from ipcalc.c: network.s_addr = addr.s_addr & mask.s_addr. -/
def calc_network (addr p : Nat) : Nat := addr &&& prefix2mask p

/-- calc_broadcast from ipcalc.c:
broadcast.s_addr = (addr.s_addr & mask.s_addr) | ~mask.s_addr. -/
def calc_broadcast (addr p : Nat) : Nat :=
  (addr &&& prefix2mask p) ||| compl32 (prefix2mask p)

/-- the loop of bit_count from ipcalc.c, made total with a fuel argument:
for any i < 2^fuel the loop body runs to completion within fuel steps, so
fuel = 32 covers every uint32_t argument of the source.  State: i is the
remaining value, c the count of 1-bits seen so far, seen records whether a
1-bit was seen in a less significant position. -/
def bit_count_go (fuel : Nat) (i : Nat) (c : Nat) (seen : Bool) : Int :=
  match fuel with
  | 0 => if c = 0 then -1 else (c : Int)
  | fuel + 1 =>
    if 0 < i then
      if i % 2 = 1 then
        bit_count_go fuel (i / 2) (c + 1) true
      else if seen then
        -1
      else
        bit_count_go fuel (i / 2) c seen
    else if c = 0 then -1 else (c : Int)

/-- bit_count from ipcalc.c on a uint32_t argument: counts 1-bits scanning
from the least significant bit, returns -1 when a 0-bit is met above an
already seen 1-bit while a further 1-bit remains, or when the count is 0. -/
def bit_count (i : Nat) : Int := bit_count_go 32 i 0 false

/-- ipv4_net_to_type from ipcalc.c, on the host-order network address. -/
def ipv4_net_to_type (net : Nat) : String :=
  let byte1 := (net >>> 24) &&& 0xff
  let byte2 := (net >>> 16) &&& 0xff
  let byte3 := (net >>> 8) &&& 0xff
  let byte4 := net &&& 0xff
  if byte1 = 0 then "This host on this network"
  else if byte1 = 10 then "Private Use"
  else if byte1 = 100 ∧ byte2 &&& 0xc0 = 64 then "Shared Address Space"
  else if byte1 = 127 then "Loopback"
  else if byte1 = 169 ∧ byte2 = 254 then "Link Local"
  else if byte1 = 172 ∧ byte2 &&& 0xf0 = 16 then "Private Use"
  else if byte1 = 192 ∧ byte2 = 0 ∧ byte3 = 0 then "IETF Protocol Assignments"
  else if byte1 = 192 ∧ byte2 = 2 ∧ byte3 = 0 then "Documentation (TEST-NET-1)"
  else if byte1 = 192 ∧ byte2 = 51 ∧ byte3 = 100 then "Documentation (TEST-NET-2)"
  else if byte1 = 203 ∧ byte2 = 0 ∧ byte3 = 113 then "Documentation (TEST-NET-3)"
  else if byte1 = 192 ∧ byte2 = 88 ∧ byte3 = 99 then "6 to 4 Relay Anycast (Deprecated)"
  else if byte1 = 192 ∧ byte2 = 52 ∧ byte3 = 193 then "AMT"
  else if byte1 = 192 ∧ byte2 = 168 then "Private Use"
  else if byte1 = 255 ∧ byte2 = 255 ∧ byte3 = 255 ∧ byte4 = 255 then "Limited Broadcast"
  else if byte1 = 192 ∧ byte2 &&& 0xfe = 18 then "Private Use"
  else if 224 ≤ byte1 ∧ byte1 ≤ 239 then "Multicast"
  else if byte1 &&& 0xf0 = 240 then "Reserved"
  else "Internet or Reserved for Future use"

/-- the numeric fields of the ip_info_st record of ipcalc.c filled in by
get_ipv4_info (string renderings are kept as numbers, the type as string). -/
structure Ip4Info where
  netmask : Nat
  prefix_len : Nat
  broadcast : Nat
  network : Nat
  addr_type : String
  hostmin : Nat
  hostmax : Nat
  deriving Repr, DecidableEq

/-- the numeric core of get_ipv4_info from ipcalc.c: a negative p selects
the single-host default 32, p > 32 is rejected, then all fields are
derived; for p < 32 host bounds come from network|1 and
(network | ~mask) - 1 when p <= 30, and for p = 32 both bounds are the
network itself. -/
def get_ipv4_info (ip : Nat) (pfxArg : Int) : Option Ip4Info :=
  let p : Int := if pfxArg < 0 then 32 else pfxArg
  if 32 < p then none
  else
    let pn : Nat := p.toNat
    let netmask := prefix2mask pn
    let network := calc_network ip pn
    some {
      netmask := netmask
      prefix_len := pn
      broadcast := calc_broadcast ip pn
      network := network
      addr_type := ipv4_net_to_type network
      hostmin := if pn < 32 then (if pn ≤ 30 then network ||| 1 else network) else network
      hostmax := if pn < 32 then
          (if pn ≤ 30 then sub1_32 (network ||| compl32 netmask) else network ||| compl32 netmask)
        else network }

/-- the 16 mask bytes built by the loop of ipv6_prefix_to_mask in ipcalc.c:
byte j is 0xff while at least 8 mask bits remain, a partial byte
0xff << (8 - r) truncated to 8 bits for a remainder 0 < r < 8, and 0 after
the mask bits are exhausted. -/
def ipv6_mask_bytes (p : Nat) : List Nat :=
  (List.range 16).map fun j =>
    if 8 * (j + 1) ≤ p then 0xff
    else if 8 * j < p then (0xff <<< (8 - (p - 8 * j))) % 256
    else 0

/-- ipv6_prefix_to_mask from ipcalc.c: NULL for p = 0 or p > 128, else the
16 mask bytes. -/
def ipv6_prefix_to_mask (p : Nat) : Option (List Nat) :=
  if p = 0 ∨ 128 < p then none
  else some (ipv6_mask_bytes p)

/-- ipv6_net_to_type from ipcalc.c on the 16 network bytes. -/
def ipv6_net_to_type (net : List Nat) : String :=
  let word1 := (net.getD 0 0) <<< 8 ||| net.getD 1 0
  let word2 := (net.getD 2 0) <<< 8 ||| net.getD 3 0
  if net = [0, 0, 0, 0, 0, 0, 0, 0, 0, 0, 0, 0, 0, 0, 0, 1] then "Loopback Address"
  else if net = [0, 0, 0, 0, 0, 0, 0, 0, 0, 0, 0, 0, 0, 0, 0, 0] then "Unspecified Address"
  else if net.take 12 = [0, 0, 0, 0, 0, 0, 0, 0, 0, 0, 0xff, 0xff] then "IPv4-mapped Address"
  else if net.take 12 = [0x00, 0x64, 0xff, 0x9b, 0, 0, 0, 0, 0, 0, 0, 0] then "IPv4-IPv6 Translat."
  else if net.take 12 = [0x10, 0, 0, 0, 0, 0, 0, 0, 0, 0, 0, 0] then "Discard-Only Address Block"
  else if word1 &&& 0xfffe = 0x2001 ∧ word2 = 0 then "IETF Protocol Assignments"
  else if word1 &&& 0xe000 = 0x2000 then "Global Unicast"
  else if (net.getD 0 0) &&& 0xfe = 0xfc then "Unique Local Unicast"
  else if word1 &&& 0xffc0 = 0xfe80 then "Link-Scoped Unicast"
  else if (net.getD 0 0) &&& 0xff = 0xff then "Multicast"
  else if word1 &&& 0xfffe = 0x2002 then "6to4"
  else "Reserved"

/-- the numeric fields of the ip_info_st record filled in by get_ipv6_info. -/
structure Ip6Info where
  prefix_len : Nat
  netmask : List Nat
  network : List Nat
  addr_type : String
  hostmin : List Nat
  hostmax : List Nat
  deriving Repr, DecidableEq

/-- the numeric core of get_ipv6_info from ipcalc.c: p = 0 or p > 128 is
rejected, a negative p selects the single-host default 128, the network is
the byte-wise AND of address and mask, and for p < 128 the host maximum
sets every host bit via byte-wise OR with the inverted mask. -/
def get_ipv6_info (ip : List Nat) (pfxArg : Int) : Option Ip6Info :=
  if pfxArg = 0 ∨ 128 < pfxArg then none
  else
    let p : Nat := (if pfxArg < 0 then 128 else pfxArg).toNat
    match ipv6_prefix_to_mask p with
    | none => none
    | some mask =>
      let network := List.zipWith (fun a b => a &&& b) ip mask
      some {
        prefix_len := p
        netmask := mask
        network := network
        addr_type := ipv6_net_to_type network
        hostmin := network
        hostmax := if p < 128 then
            List.zipWith (fun a b => a ||| compl8 b) network mask
          else network }

/-- number of dots found in an address string (the strchr scan of
get_ipv4_info, which looks for at most 3 dots). -/
def dotCount (s : String) : Nat := s.data.count '.'

/-- the asprintf loop of get_ipv4_info: append ".0" to the string n times. -/
def appendZeroComponents : Nat → String → String
  | 0, s => s
  | n + 1, s => appendZeroComponents n (s ++ ".0")

/-- the CIDR-shorthand padding of get_ipv4_info: with fewer than four
dotted components, ".0" components are appended until there are four. -/
def pad_ipv4_shorthand (s : String) : String :=
  appendZeroComponents (3 - min (dotCount s) 3) s

/-- the textual preprocessing stage of get_ipv4_info: an explicit
(non-negative) prefix triggers the shorthand padding, a missing prefix
(the -1 sentinel) leaves the string alone and defaults the prefix to 32. -/
def ipv4_preprocess (ipStr : String) (pfxArg : Int) : String × Int :=
  if 0 ≤ pfxArg then (pad_ipv4_shorthand ipStr, pfxArg) else (ipStr, 32)

end Ipcalc

namespace Ipcalc

/-- scanning a block of ones: on 2^a - 1 the loop counts a further 1-bits
and never fails, whatever was seen before. -/
theorem bit_count_go_ones : ∀ (fuel a c : Nat) (seen : Bool), 2 ^ a - 1 < 2 ^ fuel →
    bit_count_go fuel (2 ^ a - 1) c seen = if a + c = 0 then (-1 : Int) else ((a + c : Nat) : Int) := by
  intro fuel
  induction fuel with
  | zero =>
    intro a c seen h
    have ha : a = 0 := by
      by_contra hne
      have h2 : 1 < 2 ^ a := Nat.one_lt_two_pow hne
      simp only [pow_zero] at h
      omega
    subst ha
    simp only [pow_zero, Nat.sub_self, bit_count_go, Nat.zero_add]
  | succ fuel ih =>
    intro a c seen h
    cases a with
    | zero =>
      simp only [pow_zero, Nat.sub_self, bit_count_go, Nat.lt_irrefl, if_false, Nat.zero_add]
    | succ a' =>
      have hpow : 2 ^ (a' + 1) = 2 * 2 ^ a' := by rw [pow_succ]; ring
      have h1 : 1 ≤ 2 ^ a' := Nat.one_le_two_pow
      have hfpow : 2 ^ (fuel + 1) = 2 * 2 ^ fuel := by rw [pow_succ]; ring
      have hi_pos : 0 < 2 ^ (a' + 1) - 1 := by omega
      have hmod : (2 ^ (a' + 1) - 1) % 2 = 1 := by omega
      have hdiv : (2 ^ (a' + 1) - 1) / 2 = 2 ^ a' - 1 := by omega
      have hlt : 2 ^ a' - 1 < 2 ^ fuel := by omega
      simp only [bit_count_go, if_pos hi_pos, if_pos hmod, hdiv]
      rw [ih a' (c + 1) true hlt]
      rw [if_neg (by omega), if_neg (by omega)]
      congr 1
      omega

end Ipcalc

namespace Ipcalc

/-- a mask whose 1-bits form the contiguous run from bit b (inclusive) to
bit a (exclusive) is accepted by the loop with count a - b. -/
theorem bit_count_go_run : ∀ (fuel a b : Nat), b < a → 2 ^ a - 2 ^ b < 2 ^ fuel →
    bit_count_go fuel (2 ^ a - 2 ^ b) 0 false = (a : Int) - b := by
  intro fuel
  induction fuel with
  | zero =>
    intro a b hba h
    exfalso
    have hlt : 2 ^ b < 2 ^ a := Nat.pow_lt_pow_right (by norm_num) hba
    simp only [pow_zero] at h
    omega
  | succ fuel ih =>
    intro a b hba h
    cases b with
    | zero =>
      rw [pow_zero] at h ⊢
      rw [bit_count_go_ones (fuel + 1) a 0 false h]
      rw [if_neg (by omega)]
      simp
    | succ b' =>
      obtain ⟨a', rfl⟩ : ∃ a', a = a' + 1 := ⟨a - 1, by omega⟩
      have ha2 : 2 ^ (a' + 1) = 2 * 2 ^ a' := by rw [pow_succ]; ring
      have hb2 : 2 ^ (b' + 1) = 2 * 2 ^ b' := by rw [pow_succ]; ring
      have hfpow : 2 ^ (fuel + 1) = 2 * 2 ^ fuel := by rw [pow_succ]; ring
      have hlt : 2 ^ b' < 2 ^ a' := Nat.pow_lt_pow_right (by norm_num) (by omega)
      have hpos : 0 < 2 ^ (a' + 1) - 2 ^ (b' + 1) := by omega
      have hmod : ¬ (2 ^ (a' + 1) - 2 ^ (b' + 1)) % 2 = 1 := by omega
      have hdiv : (2 ^ (a' + 1) - 2 ^ (b' + 1)) / 2 = 2 ^ a' - 2 ^ b' := by omega
      have hflt : 2 ^ a' - 2 ^ b' < 2 ^ fuel := by omega
      simp only [bit_count_go, if_pos hpos, if_neg hmod, Bool.false_eq_true, if_false, hdiv]
      rw [ih a' b' (by omega) hflt]
      push_cast
      ring

/-- once a 1-bit was seen, any remaining value that is not a block of ones
makes the loop fail with -1. -/
theorem bit_count_go_seen_bad : ∀ (fuel i c : Nat), i < 2 ^ fuel →
    (∀ a : Nat, i ≠ 2 ^ a - 1) → bit_count_go fuel i c true = -1 := by
  intro fuel
  induction fuel with
  | zero =>
    intro i c h hno
    exfalso
    exact hno 0 (by simp only [pow_zero] at h ⊢; omega)
  | succ fuel ih =>
    intro i c h hno
    rcases Nat.eq_zero_or_pos i with hz | hpos
    · exact absurd (by simp [hz]) (hno 0)
    · by_cases hodd : i % 2 = 1
      · simp only [bit_count_go, if_pos hpos, if_pos hodd]
        apply ih
        · have hfpow : 2 ^ (fuel + 1) = 2 * 2 ^ fuel := by rw [pow_succ]; ring
          omega
        · intro a ha
          apply hno (a + 1)
          have h1 : 1 ≤ 2 ^ a := Nat.one_le_two_pow
          have hpow : 2 ^ (a + 1) = 2 * 2 ^ a := by rw [pow_succ]; ring
          omega
      · simp only [bit_count_go, if_pos hpos, if_neg hodd, if_pos rfl]
        simp

/-- a value that is not a contiguous nonzero run of 1-bits makes the loop,
started in its initial state, return -1. -/
theorem bit_count_go_notrun : ∀ (fuel i : Nat), i < 2 ^ fuel →
    (∀ a b : Nat, b < a → i ≠ 2 ^ a - 2 ^ b) → bit_count_go fuel i 0 false = -1 := by
  intro fuel
  induction fuel with
  | zero =>
    intro i h hno
    have hz : i = 0 := by simp only [pow_zero] at h; omega
    subst hz
    simp [bit_count_go]
  | succ fuel ih =>
    intro i h hno
    have hfpow : 2 ^ (fuel + 1) = 2 * 2 ^ fuel := by rw [pow_succ]; ring
    rcases Nat.eq_zero_or_pos i with hz | hpos
    · subst hz
      simp [bit_count_go]
    · by_cases hodd : i % 2 = 1
      · simp only [bit_count_go, if_pos hpos, if_pos hodd]
        apply bit_count_go_seen_bad fuel (i / 2) 1
        · omega
        · intro a ha
          apply hno (a + 1) 0 (by omega)
          have h1 : 1 ≤ 2 ^ a := Nat.one_le_two_pow
          have hpow : 2 ^ (a + 1) = 2 * 2 ^ a := by rw [pow_succ]; ring
          rw [pow_zero]
          omega
      · simp only [bit_count_go, if_pos hpos, if_neg hodd, Bool.false_eq_true, if_false]
        apply ih
        · omega
        · intro a b hba habs
          apply hno (a + 1) (b + 1) (by omega)
          have hlt : 2 ^ b < 2 ^ a := Nat.pow_lt_pow_right (by norm_num) hba
          have hpa : 2 ^ (a + 1) = 2 * 2 ^ a := by rw [pow_succ]; ring
          have hpb : 2 ^ (b + 1) = 2 * 2 ^ b := by rw [pow_succ]; ring
          omega

end Ipcalc

namespace Ipcalc

/-- closed form of prefix2mask for a valid nonzero prefix length. -/
theorem prefix2mask_eq_pow (p : Nat) (h1 : 1 ≤ p) (h2 : p ≤ 32) :
    prefix2mask p = 2 ^ 32 - 2 ^ (32 - p) := by
  unfold prefix2mask compl32
  rw [if_pos (by omega : p ≠ 0), Nat.shiftLeft_eq, one_mul]
  have hle : 2 ^ (32 - p) ≤ 2 ^ 32 := Nat.pow_le_pow_right (by norm_num) (by omega)
  have h1' : 1 ≤ 2 ^ (32 - p) := Nat.one_le_two_pow
  omega

/-- every netmask produced from a prefix is a 32-bit value. -/
theorem prefix2mask_lt (p : Nat) : prefix2mask p < 2 ^ 32 := by
  unfold prefix2mask compl32
  split <;> omega

/-- the complement of a 32-bit value is a 32-bit value. -/
theorem compl32_lt (m : Nat) : compl32 m < 2 ^ 32 := by
  unfold compl32
  omega

/-- bitwise AND with an even number is even. -/
theorem land_even (a m : Nat) (h : m % 2 = 0) : (a &&& m) % 2 = 0 := by
  have h0 : (a &&& m).testBit 0 = (a.testBit 0 && m.testBit 0) := Nat.testBit_and a m 0
  have hm : m.testBit 0 = false := by
    simp only [Nat.testBit_zero, decide_eq_false_iff_not]
    omega
  rw [hm, Bool.and_false] at h0
  simp only [Nat.testBit_zero, decide_eq_false_iff_not] at h0
  omega

/-- setting the lowest bit of an even number adds one. -/
theorem even_lor_one (n : Nat) (h : n % 2 = 0) : n ||| 1 = n + 1 := by
  apply Nat.eq_of_testBit_eq
  intro i
  cases i with
  | zero =>
    simp only [Nat.testBit_or, Nat.testBit_zero]
    have h1 : (n + 1) % 2 = 1 := by omega
    have h2 : ¬ n % 2 = 1 := by omega
    simp [h1, h2]
  | succ j =>
    rw [Nat.testBit_or, Nat.testBit_add_one, Nat.testBit_add_one, Nat.testBit_add_one]
    have h2 : (n + 1) / 2 = n / 2 := by omega
    rw [h2]
    simp

/-- a bitwise OR with a positive number is positive. -/
theorem pos_or_of_pos_right (a b : Nat) (h : 0 < b) : 0 < a ||| b := by
  rcases Nat.eq_zero_or_pos (a ||| b) with h0 | h1
  · exfalso
    have hb : b = 0 := Nat.zero_of_testBit_eq_false fun i => by
      have hbit := congrArg (fun n => n.testBit i) h0
      simp only [Nat.testBit_or, Nat.zero_testBit] at hbit
      exact (Bool.or_eq_false_iff.mp hbit).2
    omega
  · exact h1

/-- the wrap-around decrement agrees with plain decrement on positive
32-bit values. -/
theorem sub1_32_eq (x : Nat) (h1 : 1 ≤ x) (h2 : x < 2 ^ 32) : sub1_32 x = x - 1 := by
  unfold sub1_32
  omega

/-- for a prefix of at most 30, the netmask leaves at least two low bits
clear: it is divisible by 4. -/
theorem prefix2mask_mod_four (p : Nat) (h : p ≤ 30) : prefix2mask p % 4 = 0 := by
  rcases Nat.eq_zero_or_pos p with h0 | h0
  · subst h0
    simp [prefix2mask]
  · rw [prefix2mask_eq_pow p h0 (by omega)]
    have hs : 2 ^ (32 - p) = 4 * 2 ^ (30 - p) := by
      have he : 32 - p = (30 - p) + 2 := by omega
      rw [he, pow_add]
      ring
    have hle : 2 ^ (30 - p) ≤ 2 ^ 30 := Nat.pow_le_pow_right (by norm_num) (by omega)
    have h1' : 1 ≤ 2 ^ (30 - p) := Nat.one_le_two_pow
    omega

/-- the record produced by get_ipv4_info for an in-range prefix. -/
theorem get_ipv4_info_eq (ip p : Nat) (hp : p ≤ 32) :
    get_ipv4_info ip (p : Int) = some {
      netmask := prefix2mask p
      prefix_len := p
      broadcast := calc_broadcast ip p
      network := calc_network ip p
      addr_type := ipv4_net_to_type (calc_network ip p)
      hostmin := if p < 32 then
          (if p ≤ 30 then calc_network ip p ||| 1 else calc_network ip p)
        else calc_network ip p
      hostmax := if p < 32 then
          (if p ≤ 30 then sub1_32 (calc_network ip p ||| compl32 (prefix2mask p))
           else calc_network ip p ||| compl32 (prefix2mask p))
        else calc_network ip p } := by
  unfold get_ipv4_info
  have hneg : ¬ ((p : Int) < 0) := by omega
  rw [if_neg hneg]
  rw [if_neg (by omega : ¬ (32 : Int) < (p : Int))]
  simp only [Int.toNat_natCast]

end Ipcalc

namespace Ipcalc

/-- the mask option is populated exactly on the valid prefix range. -/
theorem ipv6_prefix_to_mask_eq (p : Nat) (h1 : 1 ≤ p) (h2 : p ≤ 128) :
    ipv6_prefix_to_mask p = some (ipv6_mask_bytes p) := by
  unfold ipv6_prefix_to_mask
  rw [if_neg (by omega : ¬ (p = 0 ∨ 128 < p))]

/-- the record produced by get_ipv6_info for an in-range prefix. -/
theorem get_ipv6_info_eq (ip : List Nat) (p : Nat) (h1 : 1 ≤ p) (h2 : p ≤ 128) :
    get_ipv6_info ip (p : Int) = some {
      prefix_len := p
      netmask := ipv6_mask_bytes p
      network := List.zipWith (fun a b => a &&& b) ip (ipv6_mask_bytes p)
      addr_type := ipv6_net_to_type (List.zipWith (fun a b => a &&& b) ip (ipv6_mask_bytes p))
      hostmin := List.zipWith (fun a b => a &&& b) ip (ipv6_mask_bytes p)
      hostmax := if p < 128 then
          List.zipWith (fun a b => a ||| compl8 b)
            (List.zipWith (fun a b => a &&& b) ip (ipv6_mask_bytes p)) (ipv6_mask_bytes p)
        else List.zipWith (fun a b => a &&& b) ip (ipv6_mask_bytes p) } := by
  unfold get_ipv6_info
  rw [if_neg (by omega : ¬ ((p : Int) = 0 ∨ 128 < (p : Int)))]
  rw [if_neg (by omega : ¬ (p : Int) < 0)]
  simp only [Int.toNat_natCast]
  rw [ipv6_prefix_to_mask_eq p h1 h2]

/-- Claim C4: for a valid IPv6 (address, prefix) pair with prefix < 128 the
reported host-min is the network address and host-max is the byte-wise OR
of the network with the inverted mask; for prefix 128 both bounds equal
the network address. -/
theorem c4_ipv6_host_range (ip : List Nat) (p : Nat) (h1 : 1 ≤ p) (h2 : p ≤ 128) :
    (get_ipv6_info ip (p : Int)).isSome = true
    ∧ (p < 128 →
        (get_ipv6_info ip (p : Int)).map Ip6Info.hostmin
          = (get_ipv6_info ip (p : Int)).map Ip6Info.network
        ∧ (get_ipv6_info ip (p : Int)).map Ip6Info.hostmax
          = (get_ipv6_info ip (p : Int)).map
              (fun i => List.zipWith (fun a b => a ||| compl8 b) i.network i.netmask))
    ∧ (p = 128 →
        (get_ipv6_info ip (p : Int)).map Ip6Info.hostmin
          = (get_ipv6_info ip (p : Int)).map Ip6Info.network
        ∧ (get_ipv6_info ip (p : Int)).map Ip6Info.hostmax
          = (get_ipv6_info ip (p : Int)).map Ip6Info.network) := by
  rw [get_ipv6_info_eq ip p h1 h2]
  refine ⟨rfl, fun hlt => ⟨rfl, ?_⟩, fun heq => ⟨rfl, ?_⟩⟩
  · simp only [Option.map_some']
    rw [if_pos hlt]
  · simp only [Option.map_some']
    rw [if_neg (by omega : ¬ p < 128)]

/-- Claim C4 witness at a concrete address and prefix. -/
theorem c4_witness :
    (get_ipv6_info [0x20, 0x01, 0x0d, 0xb8, 0, 0, 0, 0, 0, 0, 0, 0, 0, 0, 0, 1]
        ((64 : Nat) : Int)).isSome = true
    ∧ (get_ipv6_info [0x20, 0x01, 0x0d, 0xb8, 0, 0, 0, 0, 0, 0, 0, 0, 0, 0, 0, 1]
        ((64 : Nat) : Int)).map Ip6Info.hostmax
      = (get_ipv6_info [0x20, 0x01, 0x0d, 0xb8, 0, 0, 0, 0, 0, 0, 0, 0, 0, 0, 0, 1]
        ((64 : Nat) : Int)).map
          (fun i => List.zipWith (fun a b => a ||| compl8 b) i.network i.netmask) :=
  ⟨(c4_ipv6_host_range [0x20, 0x01, 0x0d, 0xb8, 0, 0, 0, 0, 0, 0, 0, 0, 0, 0, 0, 1] 64
      (by decide) (by decide)).1,
   ((c4_ipv6_host_range [0x20, 0x01, 0x0d, 0xb8, 0, 0, 0, 0, 0, 0, 0, 0, 0, 0, 0, 1] 64
      (by decide) (by decide)).2.1 (by decide)).2⟩

end Ipcalc

namespace Ipcalc

/-- Claim C6: prefix validation is asymmetric between the families; IPv6
rejects prefix 0 and any prefix above 128, IPv4 accepts prefix 0 and
rejects only prefixes above 32. -/
theorem c6_prefix_validation :
    (∀ ip : List Nat, get_ipv6_info ip 0 = none)
    ∧ (∀ (ip : List Nat) (q : Int), 128 < q → get_ipv6_info ip q = none)
    ∧ (∀ (ip : List Nat) (q : Int), 1 ≤ q → q ≤ 128 → (get_ipv6_info ip q).isSome = true)
    ∧ (∀ a : Nat, (get_ipv4_info a 0).isSome = true)
    ∧ (∀ (a : Nat) (q : Int), 32 < q → get_ipv4_info a q = none)
    ∧ (∀ (a : Nat) (q : Int), 0 ≤ q → q ≤ 32 → (get_ipv4_info a q).isSome = true) := by
  refine ⟨fun ip => ?_, fun ip q hq => ?_, fun ip q hq1 hq2 => ?_, fun a => ?_,
    fun a q hq => ?_, fun a q hq1 hq2 => ?_⟩
  · unfold get_ipv6_info
    rw [if_pos (Or.inl rfl)]
  · unfold get_ipv6_info
    rw [if_pos (Or.inr hq)]
  · obtain ⟨n, rfl⟩ : ∃ n : Nat, q = (n : Int) := ⟨q.toNat, by omega⟩
    rw [get_ipv6_info_eq ip n (by omega) (by omega)]
    rfl
  · have h := get_ipv4_info_eq a 0 (by omega)
    rw [show ((0 : Nat) : Int) = 0 from rfl] at h
    rw [h]
    rfl
  · unfold get_ipv4_info
    rw [if_neg (by omega : ¬ q < 0)]
    rw [if_pos hq]
  · obtain ⟨n, rfl⟩ : ∃ n : Nat, q = (n : Int) := ⟨q.toNat, by omega⟩
    rw [get_ipv4_info_eq a n (by omega)]
    rfl

/-- Claim C6 witness at concrete prefixes for both families. -/
theorem c6_witness :
    get_ipv6_info [0, 0, 0, 0, 0, 0, 0, 0, 0, 0, 0, 0, 0, 0, 0, 1] 0 = none
    ∧ get_ipv6_info [0, 0, 0, 0, 0, 0, 0, 0, 0, 0, 0, 0, 0, 0, 0, 1] 129 = none
    ∧ (get_ipv6_info [0, 0, 0, 0, 0, 0, 0, 0, 0, 0, 0, 0, 0, 0, 0, 1] 64).isSome = true
    ∧ (get_ipv4_info 167772161 0).isSome = true
    ∧ get_ipv4_info 167772161 33 = none
    ∧ (get_ipv4_info 167772161 32).isSome = true :=
  ⟨c6_prefix_validation.1 _,
   c6_prefix_validation.2.1 _ 129 (by decide),
   c6_prefix_validation.2.2.1 _ 64 (by decide) (by decide),
   c6_prefix_validation.2.2.2.1 167772161,
   c6_prefix_validation.2.2.2.2.1 167772161 33 (by decide),
   c6_prefix_validation.2.2.2.2.2 167772161 32 (by decide) (by decide)⟩

/-- Claim C7: the source tests (word1 & 0xfffe) == 0x2001, which no value
satisfies (the left side always has a clear low bit), so the IETF Protocol
Assignments label is unreachable and the network 2001:: is labelled Global
Unicast instead. -/
theorem c7_ietf_assignments_unreachable :
    ipv6_net_to_type [0x20, 0x01, 0, 0, 0, 0, 0, 0, 0, 0, 0, 0, 0, 0, 0, 0] = "Global Unicast"
    ∧ ∀ net : List Nat, ipv6_net_to_type net ≠ "IETF Protocol Assignments" := by
  refine ⟨by decide, fun net h => ?_⟩
  simp only [ipv6_net_to_type] at h
  by_cases hc1 : net = [0, 0, 0, 0, 0, 0, 0, 0, 0, 0, 0, 0, 0, 0, 0, 1]
  · rw [if_pos hc1] at h
    exact absurd h (by decide)
  rw [if_neg hc1] at h
  by_cases hc2 : net = [0, 0, 0, 0, 0, 0, 0, 0, 0, 0, 0, 0, 0, 0, 0, 0]
  · rw [if_pos hc2] at h
    exact absurd h (by decide)
  rw [if_neg hc2] at h
  by_cases hc3 : List.take 12 net = [0, 0, 0, 0, 0, 0, 0, 0, 0, 0, 0xff, 0xff]
  · rw [if_pos hc3] at h
    exact absurd h (by decide)
  rw [if_neg hc3] at h
  by_cases hc4 : List.take 12 net = [0x00, 0x64, 0xff, 0x9b, 0, 0, 0, 0, 0, 0, 0, 0]
  · rw [if_pos hc4] at h
    exact absurd h (by decide)
  rw [if_neg hc4] at h
  by_cases hc5 : List.take 12 net = [0x10, 0, 0, 0, 0, 0, 0, 0, 0, 0, 0, 0]
  · rw [if_pos hc5] at h
    exact absurd h (by decide)
  rw [if_neg hc5] at h
  by_cases hc6 : (net.getD 0 0 <<< 8 ||| net.getD 1 0) &&& 0xfffe = 0x2001
      ∧ net.getD 2 0 <<< 8 ||| net.getD 3 0 = 0
  · have heven := land_even (net.getD 0 0 <<< 8 ||| net.getD 1 0) 0xfffe (by norm_num)
    rw [hc6.1] at heven
    norm_num at heven
  rw [if_neg hc6] at h
  by_cases hc7 : (net.getD 0 0 <<< 8 ||| net.getD 1 0) &&& 0xe000 = 0x2000
  · rw [if_pos hc7] at h
    exact absurd h (by decide)
  rw [if_neg hc7] at h
  by_cases hc8 : net.getD 0 0 &&& 0xfe = 0xfc
  · rw [if_pos hc8] at h
    exact absurd h (by decide)
  rw [if_neg hc8] at h
  by_cases hc9 : (net.getD 0 0 <<< 8 ||| net.getD 1 0) &&& 0xffc0 = 0xfe80
  · rw [if_pos hc9] at h
    exact absurd h (by decide)
  rw [if_neg hc9] at h
  by_cases hc10 : net.getD 0 0 &&& 0xff = 0xff
  · rw [if_pos hc10] at h
    exact absurd h (by decide)
  rw [if_neg hc10] at h
  by_cases hc11 : (net.getD 0 0 <<< 8 ||| net.getD 1 0) &&& 0xfffe = 0x2002
  · rw [if_pos hc11] at h
    exact absurd h (by decide)
  rw [if_neg hc11] at h
  exact absurd h (by decide)


/-- Claim C8: the source compares the first 12 network bytes against the
bytes of 1000:: instead of the first 8 against 100::, so the network 100::
falls through to the default Reserved label while 1000:: receives the
Discard-Only label. -/
theorem c8_discard_only_misplaced :
    ipv6_net_to_type [0x01, 0, 0, 0, 0, 0, 0, 0, 0, 0, 0, 0, 0, 0, 0, 0] = "Reserved"
    ∧ ipv6_net_to_type [0x10, 0, 0, 0, 0, 0, 0, 0, 0, 0, 0, 0, 0, 0, 0, 0]
        = "Discard-Only Address Block" := by
  exact ⟨by decide, by decide⟩

end Ipcalc

namespace Ipcalc

/-- Claim C1 (amended): converting a prefix in [1,32] to a netmask and back
returns the prefix; the all-zero mask of prefix 0 is rejected with -1, so
the round trip fails at the endpoint p = 0. -/
theorem c1_mask_prefix_roundtrip :
    (∀ p : Nat, 1 ≤ p → p ≤ 32 → bit_count (prefix2mask p) = (p : Int))
    ∧ bit_count (prefix2mask 0) = -1 := by
  constructor
  · intro p h1 h2
    rw [prefix2mask_eq_pow p h1 h2]
    have hpow : 1 ≤ 2 ^ (32 - p) := Nat.one_le_two_pow
    have h := bit_count_go_run 32 32 (32 - p) (by omega) (by omega)
    rw [show bit_count (2 ^ 32 - 2 ^ (32 - p)) = bit_count_go 32 (2 ^ 32 - 2 ^ (32 - p)) 0 false
      from rfl, h]
    omega
  · decide

/-- Claim C1 counterexample: at p = 0 the round trip does not return 0 but
the failure value -1. -/
theorem c1_counterexample :
    bit_count (prefix2mask 0) = -1 ∧ (-1 : Int) ≠ (0 : Int) := by decide

/-- Claim C1 witness at the concrete prefix 24. -/
theorem c1_witness : bit_count (prefix2mask 24) = (24 : Int) :=
  c1_mask_prefix_roundtrip.1 24 (by decide) (by decide)

/-- Claim C2: the assembled record has network = address AND mask and
broadcast = network OR complement of the mask. -/
theorem c2_network_broadcast (ip p : Nat) (hp : p ≤ 32) :
    (get_ipv4_info ip (p : Int)).map Ip4Info.network = some (ip &&& prefix2mask p)
    ∧ (get_ipv4_info ip (p : Int)).map Ip4Info.broadcast
      = (get_ipv4_info ip (p : Int)).map (fun i => i.network ||| compl32 (prefix2mask p)) := by
  rw [get_ipv4_info_eq ip p hp]
  exact ⟨rfl, rfl⟩

/-- Claim C2 witness at the concrete pair 192.168.1.5/24. -/
theorem c2_witness :
    (get_ipv4_info 3232235781 ((24 : Nat) : Int)).map Ip4Info.network
      = some (3232235781 &&& prefix2mask 24)
    ∧ (get_ipv4_info 3232235781 ((24 : Nat) : Int)).map Ip4Info.broadcast
      = (get_ipv4_info 3232235781 ((24 : Nat) : Int)).map
          (fun i => i.network ||| compl32 (prefix2mask 24)) :=
  c2_network_broadcast 3232235781 24 (by decide)

/-- Claim C3: host bounds of the assembled IPv4 record; network+1 and
broadcast-1 for prefixes up to 30, network and broadcast themselves for
prefixes 31 and 32. -/
theorem c3_host_range (ip p : Nat) :
    (p ≤ 30 →
      (get_ipv4_info ip (p : Int)).map Ip4Info.hostmin
        = (get_ipv4_info ip (p : Int)).map (fun i => i.network + 1)
      ∧ (get_ipv4_info ip (p : Int)).map Ip4Info.hostmax
        = (get_ipv4_info ip (p : Int)).map (fun i => i.broadcast - 1))
    ∧ (p = 31 ∨ p = 32 →
      (get_ipv4_info ip (p : Int)).map Ip4Info.hostmin
        = (get_ipv4_info ip (p : Int)).map Ip4Info.network
      ∧ (get_ipv4_info ip (p : Int)).map Ip4Info.hostmax
        = (get_ipv4_info ip (p : Int)).map Ip4Info.broadcast) := by
  constructor
  · intro h30
    rw [get_ipv4_info_eq ip p (by omega)]
    simp only [Option.map_some']
    have hm4 := prefix2mask_mod_four p h30
    constructor
    · rw [if_pos (by omega : p < 32), if_pos h30]
      refine congrArg some ?_
      apply even_lor_one
      exact land_even ip (prefix2mask p) (by omega)
    · rw [if_pos (by omega : p < 32), if_pos h30]
      refine congrArg some ?_
      have hXlt : calc_network ip p ||| compl32 (prefix2mask p) < 2 ^ 32 :=
        Nat.or_lt_two_pow (Nat.and_lt_two_pow ip (prefix2mask_lt p)) (compl32_lt _)
      have hXpos : 0 < calc_network ip p ||| compl32 (prefix2mask p) := by
        apply pos_or_of_pos_right
        have hml := prefix2mask_lt p
        unfold compl32
        omega
      rw [sub1_32_eq _ hXpos hXlt]
      rfl
  · intro h3132
    rw [get_ipv4_info_eq ip p (by omega)]
    simp only [Option.map_some']
    rcases h3132 with h31 | h32
    · subst h31
      rw [if_pos (by norm_num : (31 : Nat) < 32), if_neg (by norm_num : ¬ (31 : Nat) ≤ 30)]
      exact ⟨rfl, rfl⟩
    · subst h32
      refine ⟨rfl, ?_⟩
      show some (calc_network ip 32) = some (calc_broadcast ip 32)
      refine congrArg some ?_
      have hc : compl32 (prefix2mask 32) = 0 := by decide
      unfold calc_broadcast calc_network
      rw [hc, Nat.or_zero]

/-- Claim C3 witness at the concrete prefixes 24 and 31. -/
theorem c3_witness :
    ((get_ipv4_info 3232235781 ((24 : Nat) : Int)).map Ip4Info.hostmin
      = (get_ipv4_info 3232235781 ((24 : Nat) : Int)).map (fun i => i.network + 1))
    ∧ ((get_ipv4_info 167772161 ((31 : Nat) : Int)).map Ip4Info.hostmax
      = (get_ipv4_info 167772161 ((31 : Nat) : Int)).map Ip4Info.broadcast) :=
  ⟨((c3_host_range 3232235781 24).1 (by decide)).1,
   ((c3_host_range 167772161 31).2 (Or.inl rfl)).2⟩

/-- Claim C5 (amended): on 32-bit masks, the conversion fails with -1
exactly when the set bits do not form one contiguous nonzero run of the
form 2^a - 2^b, and on such a run it returns its length a - b; the run is
not required to reach the most significant bit. -/
theorem c5_mask_conversion (m : Nat) (hm : m < 2 ^ 32) :
    (bit_count m ≠ -1 ↔ ∃ a b : Nat, b < a ∧ m = 2 ^ a - 2 ^ b)
    ∧ (∀ a b : Nat, b < a → m = 2 ^ a - 2 ^ b → bit_count m = (a : Int) - b) := by
  have hrun : ∀ a b : Nat, b < a → m = 2 ^ a - 2 ^ b → bit_count m = (a : Int) - b := by
    intro a b hba hm'
    subst hm'
    exact bit_count_go_run 32 a b hba hm
  refine ⟨⟨fun hne => ?_, fun hex => ?_⟩, hrun⟩
  · by_contra hnex
    push_neg at hnex
    exact hne (bit_count_go_notrun 32 m hm fun a b hba => hnex a b hba)
  · obtain ⟨a, b, hba, hm'⟩ := hex
    rw [hrun a b hba hm']
    omega

/-- Claim C5 counterexample: the mask 0.255.0.0 has a 0-bit (bit 31) more
significant than a 1-bit (bit 23), so the claim demands a failure, yet the
source accepts it and returns 8. -/
theorem c5_counterexample :
    bit_count 16711680 = 8
    ∧ Nat.testBit 16711680 31 = false
    ∧ Nat.testBit 16711680 23 = true
    ∧ (8 : Int) ≠ -1 := by decide

/-- Claim C5 witness at the contiguous mask 255.0.0.0 = 2^32 - 2^24. -/
theorem c5_witness : bit_count 4278190080 = (32 : Int) - (24 : Nat) :=
  (c5_mask_conversion 4278190080 (by decide)).2 32 24 (by decide) (by decide)

end Ipcalc

namespace Ipcalc

/-- each appended ".0" component adds exactly one dot. -/
theorem dotCount_appendZero (n : Nat) : ∀ s : String,
    dotCount (appendZeroComponents n s) = dotCount s + n := by
  induction n with
  | zero => intro s; rfl
  | succ k ih =>
    intro s
    show dotCount (appendZeroComponents k (s ++ ".0")) = dotCount s + (k + 1)
    rw [ih (s ++ ".0")]
    unfold dotCount
    rw [String.data_append, List.count_append]
    have hc : List.count '.' (String.data ".0") = 1 := by decide
    omega

/-- Claim C9: with an explicit prefix, an address string with fewer than
four dotted components is right-padded with ".0" components until it has
four (three dots), and the prefix is passed through unchanged; in
particular "172" with prefix 8 becomes "172.0.0.0" with prefix 8. -/
theorem c9_shorthand_padding :
    ipv4_preprocess "172" 8 = ("172.0.0.0", 8)
    ∧ (∀ (s : String) (q : Int), 0 ≤ q → dotCount s ≤ 3 →
        dotCount (ipv4_preprocess s q).1 = 3 ∧ (ipv4_preprocess s q).2 = q) := by
  constructor
  · decide
  · intro s q hq hs
    unfold ipv4_preprocess
    rw [if_pos hq]
    refine ⟨?_, rfl⟩
    show dotCount (pad_ipv4_shorthand s) = 3
    unfold pad_ipv4_shorthand
    rw [dotCount_appendZero]
    omega

/-- Claim C9 witness at the shorthand "172" with prefix 8. -/
theorem c9_witness :
    dotCount (ipv4_preprocess "172" 8).1 = 3 ∧ (ipv4_preprocess "172" 8).2 = 8 :=
  c9_shorthand_padding.2 "172" 8 (by decide) (by decide)

/-- a byte below 256 is unchanged by AND with the all-ones mask byte. -/
theorem land_255 (x : Nat) (h : x < 256) : x &&& 255 = x := by
  have h8 : x < 2 ^ 8 := by omega
  have hx := Nat.and_pow_two_sub_one_of_lt_two_pow h8
  norm_num at hx
  exact hx

/-- byte-wise AND of a list of bytes with all-ones mask bytes is the list
itself. -/
theorem zipWith_land_all (l : List Nat) : ∀ n : Nat, (∀ b ∈ l, b < 256) → l.length = n →
    List.zipWith (fun a b => a &&& b) l (List.replicate n 255) = l := by
  induction l with
  | nil => intro n _ h; subst h; rfl
  | cons x xs ih =>
    intro n hb hl
    cases n with
    | zero => simp at hl
    | succ k =>
      simp only [List.replicate, List.zipWith_cons_cons]
      rw [land_255 x (hb x (by simp)), ih k (fun b hbm => hb b (by simp [hbm])) (by simpa using hl)]

/-- Claim C10: with the missing-prefix sentinel -1 the computation
succeeds, silently defaulting the prefix to 32 (IPv4) or 128 (IPv6), so
network, host-min and host-max all equal the input address. -/
theorem c10_default_single_host :
    (∀ ip : Nat, ip < 2 ^ 32 →
      (get_ipv4_info ip (-1)).map Ip4Info.prefix_len = some 32
      ∧ (get_ipv4_info ip (-1)).map Ip4Info.network = some ip
      ∧ (get_ipv4_info ip (-1)).map Ip4Info.hostmin = some ip
      ∧ (get_ipv4_info ip (-1)).map Ip4Info.hostmax = some ip)
    ∧ (∀ ip : List Nat, ip.length = 16 → (∀ b ∈ ip, b < 256) →
      (get_ipv6_info ip (-1)).map Ip6Info.prefix_len = some 128
      ∧ (get_ipv6_info ip (-1)).map Ip6Info.network = some ip
      ∧ (get_ipv6_info ip (-1)).map Ip6Info.hostmin = some ip
      ∧ (get_ipv6_info ip (-1)).map Ip6Info.hostmax = some ip) := by
  constructor
  · intro ip hip
    have h32 : get_ipv4_info ip (-1) = get_ipv4_info ip ((32 : Nat) : Int) := rfl
    rw [h32, get_ipv4_info_eq ip 32 (by omega)]
    have hnet : calc_network ip 32 = ip := by
      have hm32 : prefix2mask 32 = 2 ^ 32 - 1 := by decide
      unfold calc_network
      rw [hm32]
      exact Nat.and_pow_two_sub_one_of_lt_two_pow hip
    have hnlt : ¬ (32 : Nat) < 32 := by norm_num
    refine ⟨rfl, ?_, ?_, ?_⟩
    · simp only [Option.map_some']
      rw [hnet]
    · simp only [Option.map_some']
      rw [if_neg hnlt, hnet]
    · simp only [Option.map_some']
      rw [if_neg hnlt, hnet]
  · intro ip hlen hb
    have h128 : get_ipv6_info ip (-1) = get_ipv6_info ip ((128 : Nat) : Int) := rfl
    rw [h128, get_ipv6_info_eq ip 128 (by omega) (by omega)]
    have hmask : ipv6_mask_bytes 128 = List.replicate 16 255 := by decide
    have hnet : List.zipWith (fun a b => a &&& b) ip (ipv6_mask_bytes 128) = ip := by
      rw [hmask, ← hlen]
      exact zipWith_land_all ip ip.length hb rfl
    have hnlt : ¬ (128 : Nat) < 128 := by norm_num
    refine ⟨rfl, ?_, ?_, ?_⟩
    · simp only [Option.map_some']
      rw [hnet]
    · simp only [Option.map_some']
      rw [hnet]
    · simp only [Option.map_some']
      rw [if_neg hnlt, hnet]

/-- Claim C10 witness at concrete addresses of both families. -/
theorem c10_witness :
    (get_ipv4_info 3232235781 (-1)).map Ip4Info.hostmin = some 3232235781
    ∧ (get_ipv6_info [0x20, 0x01, 0x0d, 0xb8, 0, 0, 0, 0, 0, 0, 0, 0, 0, 0, 0, 1]
        (-1)).map Ip6Info.hostmax
      = some [0x20, 0x01, 0x0d, 0xb8, 0, 0, 0, 0, 0, 0, 0, 0, 0, 0, 0, 1] :=
  ⟨(c10_default_single_host.1 3232235781 (by decide)).2.2.1,
   (c10_default_single_host.2 [0x20, 0x01, 0x0d, 0xb8, 0, 0, 0, 0, 0, 0, 0, 0, 0, 0, 0, 1]
      (by decide) (by decide)).2.2.2⟩

end Ipcalc
